import Mathlib

/-!
# Verification of the Snake game state engine (`src/hello_rust/src/main.rs`)

Shallow embedding of the game-state update engine of a terminal Snake game:
the `Game` struct, the tick algorithm `update`, food spawning `spawn_food`,
obstacle generation `generate_level`, and the direction-change logic of the
input loop. Randomness (`rand::thread_rng`) is modelled as an oracle stream
`Nat → Nat` of raw draws; `gen_range(lo..hi)` applied to raw draw `r` yields
`lo + r % (hi - lo)`, and `gen_bool(0.5)` reads one draw and tests `r % 2 = 0`.
The unbounded retry loop of `spawn_food` is given explicit fuel and returns
`Option`; `none` models non-termination. Coordinates are `u16` in the source;
they are embedded as `Nat` with `wrapping_sub(1)` made explicit modulo 2^16
(the one place where u16 overflow is reachable in the source).
-/

/-- The `Point` struct: an integer coordinate pair, equality by value. -/
structure Point where
  x : Nat
  y : Nat
deriving DecidableEq

/-- The `Direction` enum. -/
inductive Direction where
  | up
  | down
  | left
  | right
deriving DecidableEq

/-- The `Game` struct. `snake` is the `VecDeque<Point>` with the head at the
front; `obstacles` models the `HashSet<Point>` as a duplicate-free list. -/
structure Game where
  snake : List Point
  food : Point
  obstacles : List Point
  direction : Direction
  score : Nat
  level : Nat
  game_over : Bool
  width : Nat
  height : Nat
deriving DecidableEq

/-- `u16::wrapping_sub(1)`: for `a < 2^16` this is `a - 1`, except `0 ↦ 65535`. -/
def wrapSub1 (a : Nat) : Nat := (a + 65535) % 65536

/-- The `new_head` computation at the top of `Game::update`: translate the
head one step in the current direction (with `wrapping_sub` on Up/Left). -/
def nextHead (d : Direction) (head : Point) : Point :=
  match d with
  | .up => ⟨head.x, wrapSub1 head.y⟩
  | .down => ⟨head.x, head.y + 1⟩
  | .left => ⟨wrapSub1 head.x, head.y⟩
  | .right => ⟨head.x + 1, head.y⟩

/-- The cell sampled by the `i`-th iteration of the `spawn_food` loop:
`gen_range(1..width-1)` and `gen_range(1..height-1)` read two raw draws. -/
def sampleAt (g : Game) (rng : Nat → Nat) (i : Nat) : Point :=
  ⟨1 + rng (2 * i) % (g.width - 2), 1 + rng (2 * i + 1) % (g.height - 2)⟩

/-- The retry loop of `Game::spawn_food`, with fuel: sample an interior cell,
accept it if it is in neither the snake nor the obstacle set, else retry. -/
def spawnFoodAux (g : Game) (rng : Nat → Nat) : Nat → Nat → Option Point
  | 0, _ => none
  | fuel + 1, i =>
    let p := sampleAt g rng i
    if p ∉ g.snake ∧ p ∉ g.obstacles then some p
    else spawnFoodAux g rng fuel (i + 1)

/-- `Game::spawn_food`: run the retry loop from iteration 0. `none` models the
loop failing to terminate within `fuel` iterations. -/
def spawnFood (g : Game) (rng : Nat → Nat) (fuel : Nat) : Option Point :=
  spawnFoodAux g rng fuel 0

/-- Manhattan distance, computed in the source over `i32` as
`(head.x as i32 - p.x as i32).abs() + (head.y as i32 - p.y as i32).abs()`. -/
def manhattan (a b : Point) : Nat :=
  ((a.x : Int) - (b.x : Int)).natAbs + ((a.y : Int) - (b.y : Int)).natAbs

/-- The `snake.front().map_or(true, ...)` proximity guard of
`Game::generate_level`: the candidate cell is farther than Manhattan
distance 3 from the snake head (vacuously true for an empty snake). -/
def farFromHead (g : Game) (p : Point) : Bool :=
  match g.snake.head? with
  | none => true
  | some hd => decide (3 < manhattan hd p)

/-- The per-cell acceptance test of `Game::generate_level`: strictly inside
the border, not a snake cell, not the food cell, far from the head. -/
def obstacleOK (g : Game) (p : Point) : Bool :=
  decide (0 < p.x) && decide (p.x < g.width - 1) &&
  decide (0 < p.y) && decide (p.y < g.height - 1) &&
  decide (p ∉ g.snake) && decide (p ≠ g.food) && farFromHead g p

/-- `HashSet::insert` on the duplicate-free list model. -/
def insertP (p : Point) (l : List Point) : List Point :=
  if p ∈ l then l else p :: l

/-- The inner `for i in 0..length` loop of `Game::generate_level`: try to
place each cell of one segment, skipping cells that fail `obstacleOK`. -/
def placeCells (g : Game) : List Point → List Point → List Point
  | [], obs => obs
  | p :: ps, obs =>
    placeCells g ps (if obstacleOK g p then insertP p obs else obs)

/-- The cells of one attempted segment: `length` cells in a horizontal or
vertical run from `(sx, sy)`. -/
def segmentCells (isH : Bool) (len sx sy : Nat) : List Point :=
  (List.range len).map fun i =>
    if isH then ⟨sx + i, sy⟩ else ⟨sx, sy + i⟩

/-- The outer `for _ in 0..num_obstacles` loop of `Game::generate_level`.
Each iteration reads four raw draws: `gen_bool(0.5)`, `gen_range(3..8)`,
`gen_range(2..width-2)`, `gen_range(2..height-2)`. -/
def genLevelAux (g : Game) (rng : Nat → Nat) : Nat → Nat → List Point → List Point
  | 0, _, obs => obs
  | n + 1, i, obs =>
    let isH := rng (4 * i) % 2 == 0
    let len := 3 + rng (4 * i + 1) % 5
    let sx := 2 + rng (4 * i + 2) % (g.width - 4)
    let sy := 2 + rng (4 * i + 3) % (g.height - 4)
    genLevelAux g rng n (i + 1) (placeCells g (segmentCells isH len sx sy) obs)

/-- `Game::generate_level`: clear the obstacle set, then attempt to place
`level * 3 + 5` segments. -/
def generateLevel (g : Game) (rng : Nat → Nat) : Game :=
  { g with obstacles := genLevelAux g rng (g.level * 3 + 5) 0 [] }

/-- `Game::update`, one tick. `rngF`/`fuelF` drive the `spawn_food` call and
`rngL` drives the `generate_level` call reached on a level-up; `none` models
either the `unwrap` panic on an empty snake or a non-terminating
`spawn_food`. -/
def update (g : Game) (rngF : Nat → Nat) (fuelF : Nat) (rngL : Nat → Nat) : Option Game :=
  if g.game_over then some g
  else
    match g.snake with
    | [] => none
    | head :: _ =>
      let nh := nextHead g.direction head
      if nh.x = 0 ∨ g.width - 1 ≤ nh.x ∨ nh.y = 0 ∨ g.height - 1 ≤ nh.y then
        some { g with game_over := true }
      else if nh ∈ g.snake then
        some { g with game_over := true }
      else if nh ∈ g.obstacles then
        some { g with game_over := true }
      else
        let pushed := { g with snake := nh :: g.snake }
        if nh = g.food then
          match spawnFood pushed rngF fuelF with
          | none => none
          | some food1 =>
            let ate := { pushed with food := food1, score := g.score + 1 }
            if ate.score % 5 = 0 then
              generateLevel { ate with level := g.level + 1 } rngL
              |> some
            else
              some ate
        else
          some { pushed with snake := pushed.snake.dropLast }

/-- The direction-change logic of the input loop in `main`: the key for `d`
is ignored when the current direction is the 180-degree opposite of `d`. -/
def oppositeDir : Direction → Direction
  | .up => .down
  | .down => .up
  | .left => .right
  | .right => .left

/-- `set_direction(d)` as implemented by the four key handlers in `main`:
e.g. for Left, `if game.direction != Direction::Right { game.direction =
Direction::Left }`. -/
def setDirection (g : Game) (d : Direction) : Game :=
  if g.direction = oppositeDir d then g else { g with direction := d }

/-- `Game::new(width, height)`: 3-segment snake centered horizontally,
direction Right, score 0, level 1, no obstacles, then spawn initial food. -/
def newGame (w h : Nat) (rng : Nat → Nat) (fuel : Nat) : Option Game :=
  let sx := w / 2
  let sy := h / 2
  let g : Game :=
    { snake := [⟨sx, sy⟩, ⟨sx - 1, sy⟩, ⟨sx - 2, sy⟩]
      food := ⟨0, 0⟩
      obstacles := []
      direction := .right
      score := 0
      level := 1
      game_over := false
      width := w
      height := h }
  match spawnFood g rng fuel with
  | none => none
  | some p => some { g with food := p }

/-- Reachable game states: produced from `new(w, h)` by any sequence of
`set_direction` and (terminating) `advance` calls, under any oracle streams. -/
inductive Reachable (w h : Nat) : Game → Prop where
  | init (rng : Nat → Nat) (fuel : Nat) (g : Game) :
      newGame w h rng fuel = some g → Reachable w h g
  | dir (g : Game) (d : Direction) :
      Reachable w h g → Reachable w h (setDirection g d)
  | step (g : Game) (rngF : Nat → Nat) (fuelF : Nat) (rngL : Nat → Nat) (g1 : Game) :
      Reachable w h g → update g rngF fuelF rngL = some g1 → Reachable w h g1

/-- A cell strictly inside the border: `1 ≤ x ≤ w-2` and `1 ≤ y ≤ h-2`. -/
def interiorCell (w h : Nat) (p : Point) : Prop :=
  1 ≤ p.x ∧ p.x ≤ w - 2 ∧ 1 ≤ p.y ∧ p.y ≤ h - 2

instance (w h : Nat) (p : Point) : Decidable (interiorCell w h p) := by
  unfold interiorCell; infer_instance

/-- The reachability invariant bundle: fixed dimensions, all cells interior,
snake duplicate-free with at least 3 segments, food disjoint from snake and
obstacles. -/
def GameInv (w h : Nat) (g : Game) : Prop :=
  g.width = w ∧ g.height = h ∧
  (∀ p ∈ g.snake, interiorCell w h p) ∧
  interiorCell w h g.food ∧
  (∀ p ∈ g.obstacles, interiorCell w h p) ∧
  g.snake.Nodup ∧
  3 ≤ g.snake.length ∧
  g.food ∉ g.snake ∧
  g.food ∉ g.obstacles

/-! ## Helper lemmas -/

/-- A cell is free when it lies in neither the snake nor the obstacle set. -/
def FreeCell (g : Game) (p : Point) : Prop :=
  p ∉ g.snake ∧ p ∉ g.obstacles

instance (g : Game) (p : Point) : Decidable (FreeCell g p) := by
  unfold FreeCell; infer_instance

theorem sampleAt_interior (g : Game) (rng : Nat → Nat) (i : Nat)
    (hw : 3 ≤ g.width) (hh : 3 ≤ g.height) :
    interiorCell g.width g.height (sampleAt g rng i) := by
  have hx := Nat.mod_lt (rng (2 * i)) (show 0 < g.width - 2 by omega)
  have hy := Nat.mod_lt (rng (2 * i + 1)) (show 0 < g.height - 2 by omega)
  unfold interiorCell sampleAt
  dsimp
  omega

theorem spawnFoodAux_some (g : Game) (rng : Nat → Nat) :
    ∀ fuel i p, spawnFoodAux g rng fuel i = some p →
      FreeCell g p ∧ ∃ j, p = sampleAt g rng j := by
  intro fuel
  induction fuel with
  | zero => intro i p h; simp [spawnFoodAux] at h
  | succ n ih =>
    intro i p h
    rw [spawnFoodAux] at h
    split at h
    · rename_i hfree
      cases h
      exact ⟨hfree, i, rfl⟩
    · exact ih (i + 1) p h

theorem spawnFoodAux_terminates (g : Game) (rng : Nat → Nat) :
    ∀ fuel i, (∃ j, i ≤ j ∧ j < i + fuel ∧ FreeCell g (sampleAt g rng j)) →
      ∃ p, spawnFoodAux g rng fuel i = some p := by
  intro fuel
  induction fuel with
  | zero => intro i ⟨j, hij, hj, _⟩; omega
  | succ n ih =>
    intro i ⟨j, hij, hj, hfree⟩
    rw [spawnFoodAux]
    split
    · exact ⟨_, rfl⟩
    · rename_i hnot
      apply ih (i + 1)
      refine ⟨j, ?_, by omega, hfree⟩
      rcases Nat.eq_or_lt_of_le hij with heq | hlt
      · subst heq; exact absurd hfree hnot
      · omega

theorem spawnFoodAux_none (g : Game) (rng : Nat → Nat)
    (hnone : ∀ j, ¬ FreeCell g (sampleAt g rng j)) :
    ∀ fuel i, spawnFoodAux g rng fuel i = none := by
  intro fuel
  induction fuel with
  | zero => intro i; rfl
  | succ n ih =>
    intro i
    rw [spawnFoodAux]
    split
    · exact absurd (by assumption) (hnone i)
    · exact ih (i + 1)

theorem insertP_mem {q : Point} {p : Point} {l : List Point}
    (h : q ∈ insertP p l) : q = p ∨ q ∈ l := by
  unfold insertP at h
  split at h
  · exact Or.inr h
  · rw [List.mem_cons] at h
    exact h

theorem insertP_length (p : Point) (l : List Point) :
    (insertP p l).length ≤ l.length + 1 := by
  unfold insertP
  split <;> simp

theorem placeCells_mem (g : Game) :
    ∀ ps obs p, p ∈ placeCells g ps obs → p ∈ obs ∨ obstacleOK g p = true := by
  intro ps
  induction ps with
  | nil => intro obs p h; exact Or.inl h
  | cons q qs ih =>
    intro obs p h
    rw [placeCells] at h
    rcases ih _ p h with hmem | hok
    · split at hmem
      · rename_i hq
        rcases insertP_mem hmem with rfl | hm
        · exact Or.inr hq
        · exact Or.inl hm
      · exact Or.inl hmem
    · exact Or.inr hok

theorem placeCells_length (g : Game) :
    ∀ ps obs, (placeCells g ps obs).length ≤ obs.length + ps.length := by
  intro ps
  induction ps with
  | nil => intro obs; simp [placeCells]
  | cons q qs ih =>
    intro obs
    rw [placeCells]
    refine le_trans (ih _) ?_
    have : (if obstacleOK g q then insertP q obs else obs).length ≤ obs.length + 1 := by
      split
      · exact insertP_length q obs
      · simp
    simp only [List.length_cons]
    omega

theorem genLevelAux_mem (g : Game) (rng : Nat → Nat) :
    ∀ n i obs p, p ∈ genLevelAux g rng n i obs → p ∈ obs ∨ obstacleOK g p = true := by
  intro n
  induction n with
  | zero => intro i obs p h; exact Or.inl h
  | succ m ih =>
    intro i obs p h
    rw [genLevelAux] at h
    rcases ih _ _ p h with hmem | hok
    · rcases placeCells_mem g _ _ p hmem with hm | hok
      · exact Or.inl hm
      · exact Or.inr hok
    · exact Or.inr hok

theorem genLevelAux_length (g : Game) (rng : Nat → Nat) :
    ∀ n i obs, (genLevelAux g rng n i obs).length ≤ obs.length + n * 7 := by
  intro n
  induction n with
  | zero => intro i obs; simp [genLevelAux]
  | succ m ih =>
    intro i obs
    rw [genLevelAux]
    refine le_trans (ih _ _) ?_
    have hseg : (segmentCells (rng (4 * i) % 2 == 0) (3 + rng (4 * i + 1) % 5)
        (2 + rng (4 * i + 2) % (g.width - 4)) (2 + rng (4 * i + 3) % (g.height - 4))).length
        = 3 + rng (4 * i + 1) % 5 := by
      simp [segmentCells]
    have hlen : rng (4 * i + 1) % 5 < 5 := Nat.mod_lt _ (by omega)
    have := placeCells_length g (segmentCells (rng (4 * i) % 2 == 0)
        (3 + rng (4 * i + 1) % 5) (2 + rng (4 * i + 2) % (g.width - 4))
        (2 + rng (4 * i + 3) % (g.height - 4))) obs
    rw [hseg] at this
    omega

theorem obstacleOK_spec {g : Game} {p : Point} (h : obstacleOK g p = true) :
    0 < p.x ∧ p.x < g.width - 1 ∧ 0 < p.y ∧ p.y < g.height - 1 ∧
    p ∉ g.snake ∧ p ≠ g.food ∧
    (∀ hd, g.snake.head? = some hd → 3 < manhattan hd p) := by
  unfold obstacleOK at h
  simp only [Bool.and_eq_true, decide_eq_true_eq] at h
  obtain ⟨⟨⟨⟨⟨⟨h1, h2⟩, h3⟩, h4⟩, h5⟩, h6⟩, h7⟩ := h
  refine ⟨h1, h2, h3, h4, h5, h6, ?_⟩
  intro hd hhd
  unfold farFromHead at h7
  rw [hhd] at h7
  simpa using h7

theorem obstacleOK_congr (g1 g2 : Game) (hw : g1.width = g2.width)
    (hh : g1.height = g2.height) (hs : g1.snake = g2.snake) (hf : g1.food = g2.food)
    (p : Point) : obstacleOK g1 p = obstacleOK g2 p := by
  unfold obstacleOK farFromHead
  rw [hw, hh, hs, hf]

theorem placeCells_congr (g1 g2 : Game) (hw : g1.width = g2.width)
    (hh : g1.height = g2.height) (hs : g1.snake = g2.snake) (hf : g1.food = g2.food) :
    ∀ ps obs, placeCells g1 ps obs = placeCells g2 ps obs := by
  intro ps
  induction ps with
  | nil => intro obs; rfl
  | cons q qs ih =>
    intro obs
    rw [placeCells, placeCells, obstacleOK_congr g1 g2 hw hh hs hf, ih]

theorem genLevelAux_congr (g1 g2 : Game) (rng : Nat → Nat)
    (hw : g1.width = g2.width) (hh : g1.height = g2.height)
    (hs : g1.snake = g2.snake) (hf : g1.food = g2.food) :
    ∀ n i obs, genLevelAux g1 rng n i obs = genLevelAux g2 rng n i obs := by
  intro n
  induction n with
  | zero => intro i obs; rfl
  | succ m ih =>
    intro i obs
    rw [genLevelAux, genLevelAux, hw, hh,
      placeCells_congr g1 g2 hw hh hs hf, ih]

theorem newGame_inv {w h : Nat} {rng : Nat → Nat} {fuel : Nat} {g : Game}
    (hw : 10 ≤ w) (hh : 10 ≤ h) (hg : newGame w h rng fuel = some g) :
    GameInv w h g := by
  rw [newGame] at hg
  dsimp only at hg
  split at hg
  · exact absurd hg (by simp)
  · rename_i p hsf
    injection hg with hg
    subst hg
    obtain ⟨⟨hpns, hpno⟩, j, hpj⟩ := spawnFoodAux_some _ rng fuel 0 p hsf
    have hpint : interiorCell w h p := by
      rw [hpj]
      exact sampleAt_interior _ rng j (show 3 ≤ w by omega) (show 3 ≤ h by omega)
    refine ⟨rfl, rfl, ?_, hpint, by simp, ?_, by simp, hpns, by simp⟩
    · intro q hq
      simp only [List.mem_cons, List.not_mem_nil, or_false] at hq
      unfold interiorCell
      rcases hq with rfl | rfl | rfl <;> dsimp <;> omega
    · simp only [List.nodup_cons, List.mem_cons, List.not_mem_nil, or_false,
        List.nodup_nil, and_true, not_or, Point.mk.injEq]
      exact ⟨⟨by omega, by omega⟩, by omega, by simp⟩

theorem setDirection_inv {w h : Nat} {g : Game} {d : Direction}
    (hInv : GameInv w h g) : GameInv w h (setDirection g d) := by
  unfold setDirection
  split
  · exact hInv
  · exact hInv

theorem update_inv {w h : Nat} {g g1 : Game} {rngF : Nat → Nat} {fuelF : Nat}
    {rngL : Nat → Nat} (hw : 10 ≤ w) (hh : 10 ≤ h) (hInv : GameInv w h g)
    (hup : update g rngF fuelF rngL = some g1) : GameInv w h g1 := by
  obtain ⟨hgw, hgh, hsnake, hfood, hobs, hnodup, hlen, hfs, hfo⟩ := hInv
  subst hgw
  subst hgh
  unfold update at hup
  cases hgo : g.game_over with
  | true =>
    rw [hgo, if_pos rfl] at hup
    injection hup with hup
    subst hup
    exact ⟨rfl, rfl, hsnake, hfood, hobs, hnodup, hlen, hfs, hfo⟩
  | false =>
    rcases hsn : g.snake with _ | ⟨head, rest⟩
    · rw [hsn] at hlen
      simp at hlen
    · rw [hgo, hsn] at hup
      simp only [Bool.false_eq_true, if_false] at hup
      rw [← hsn] at hup
      split at hup
      · injection hup with hup
        subst hup
        exact ⟨rfl, rfl, hsnake, hfood, hobs, hnodup, hlen, hfs, hfo⟩
      · split at hup
        · injection hup with hup
          subst hup
          exact ⟨rfl, rfl, hsnake, hfood, hobs, hnodup, hlen, hfs, hfo⟩
        · split at hup
          · injection hup with hup
            subst hup
            exact ⟨rfl, rfl, hsnake, hfood, hobs, hnodup, hlen, hfs, hfo⟩
          · rename_i hwall hself hobst
            have hnhint : interiorCell g.width g.height (nextHead g.direction head) := by
              unfold interiorCell
              push_neg at hwall
              omega
            have hnhs : nextHead g.direction head ∉ g.snake := hself
            split at hup
            · -- ate the food
              rename_i hfeq
              split at hup
              · exact absurd hup (by simp)
              · rename_i food1 hsf
                obtain ⟨⟨h1ns, h1no⟩, j, h1j⟩ :=
                  spawnFoodAux_some _ rngF fuelF 0 food1 hsf
                have h1int : interiorCell g.width g.height food1 := by
                  rw [h1j]
                  exact sampleAt_interior _ rngF j (by omega) (by omega)
                have hsnake1 : ∀ p ∈ nextHead g.direction head :: g.snake,
                    interiorCell g.width g.height p := by
                  intro p hp
                  rcases List.mem_cons.mp hp with rfl | hp
                  · exact hnhint
                  · exact hsnake p hp
                have hnodup1 : (nextHead g.direction head :: g.snake).Nodup :=
                  List.nodup_cons.mpr ⟨hnhs, hnodup⟩
                have hlen1 : 3 ≤ (nextHead g.direction head :: g.snake).length := by
                  simp only [List.length_cons]
                  omega
                have h1ns2 : food1 ∉ nextHead g.direction head :: g.snake := by
                  simpa using h1ns
                split at hup
                · -- level up: obstacles regenerated
                  injection hup with hup
                  subst hup
                  unfold generateLevel
                  refine ⟨rfl, rfl, hsnake1, h1int, ?_, hnodup1, hlen1, h1ns2, ?_⟩
                  · intro p hp
                    rcases genLevelAux_mem _ rngL _ _ _ p hp with hm | hok
                    · simp at hm
                    · obtain ⟨hx1, hx2, hy1, hy2, _, _, _⟩ := obstacleOK_spec hok
                      dsimp at hx2 hy2
                      exact ⟨hx1, by omega, hy1, by omega⟩
                  · intro hmem
                    rcases genLevelAux_mem _ rngL _ _ _ _ hmem with hm | hok
                    · simp at hm
                    · obtain ⟨_, _, _, _, _, hne, _⟩ := obstacleOK_spec hok
                      exact hne rfl
                · -- no level up: obstacles unchanged
                  injection hup with hup
                  subst hup
                  exact ⟨rfl, rfl, hsnake1, h1int, hobs, hnodup1, hlen1, h1ns2, h1no⟩
            · -- no food: tail removed
              rename_i hfne
              injection hup with hup
              subst hup
              have hsub : List.Sublist ((nextHead g.direction head :: g.snake).dropLast)
                  (nextHead g.direction head :: g.snake) := List.dropLast_sublist _
              have hfns : g.food ∉ nextHead g.direction head :: g.snake := by
                intro hmem
                rcases List.mem_cons.mp hmem with heq | hmem
                · exact hfne heq.symm
                · exact hfs hmem
              refine ⟨rfl, rfl, ?_, hfood, hobs, ?_, ?_, ?_, hfo⟩
              · intro p hp
                dsimp at hp
                rcases List.mem_cons.mp (hsub.subset hp) with rfl | hp2
                · exact hnhint
                · exact hsnake p hp2
              · exact hsub.nodup (List.nodup_cons.mpr ⟨hnhs, hnodup⟩)
              · dsimp
                rw [List.length_dropLast, List.length_cons]
                omega
              · intro hmem
                exact hfns (hsub.subset hmem)

theorem reachable_inv {w h : Nat} {g : Game} (hw : 10 ≤ w) (hh : 10 ≤ h)
    (hr : Reachable w h g) : GameInv w h g := by
  induction hr with
  | init rng fuel g hg => exact newGame_inv hw hh hg
  | dir g d _ ih => exact setDirection_inv ih
  | step g rngF fuelF rngL g1 _ hup ih => exact update_inv hw hh ih hup

/-! ## Concrete states used by witnesses -/

/-- The all-zero oracle stream. -/
def rngZero : Nat → Nat := fun _ => 0

/-- An oracle stream whose first two draws place the initial food at (6,5)
on a 10-by-10 board. -/
def rngEat : Nat → Nat := fun n => if n = 0 then 5 else if n = 1 then 4 else 0

/-- The state produced by `new(10, 10)` under the all-zero stream:
3-segment snake at row 5, food at (1,1). -/
def gInit : Game :=
  { snake := [⟨5, 5⟩, ⟨4, 5⟩, ⟨3, 5⟩], food := ⟨1, 1⟩, obstacles := []
    direction := .right, score := 0, level := 1, game_over := false
    width := 10, height := 10 }

theorem gInit_reachable : Reachable 10 10 gInit :=
  Reachable.init rngZero 5 gInit (by rfl)

/-- The state produced by `new(10, 10)` under `rngEat`: the food sits
directly in front of the head. -/
def gEat : Game :=
  { snake := [⟨5, 5⟩, ⟨4, 5⟩, ⟨3, 5⟩], food := ⟨6, 5⟩, obstacles := []
    direction := .right, score := 0, level := 1, game_over := false
    width := 10, height := 10 }

theorem gEat_reachable : Reachable 10 10 gEat :=
  Reachable.init rngEat 5 gEat (by rfl)

/-- The state after `gEat` advances once: it ate the food. -/
def gEat1 : Game :=
  { snake := [⟨6, 5⟩, ⟨5, 5⟩, ⟨4, 5⟩, ⟨3, 5⟩], food := ⟨1, 1⟩, obstacles := []
    direction := .right, score := 1, level := 1, game_over := false
    width := 10, height := 10 }

/-- A snake against the left wall, moving left. -/
def gWall : Game :=
  { snake := [⟨1, 5⟩, ⟨2, 5⟩, ⟨3, 5⟩], food := ⟨8, 8⟩, obstacles := []
    direction := .left, score := 0, level := 1, game_over := false
    width := 10, height := 10 }

/-- A terminal state. -/
def gDead : Game :=
  { snake := [⟨5, 5⟩, ⟨4, 5⟩, ⟨3, 5⟩], food := ⟨1, 1⟩, obstacles := [⟨7, 7⟩]
    direction := .right, score := 3, level := 1, game_over := true
    width := 10, height := 10 }

/-- A state one food short of a level-up, with the food in front of the
head, on the default 40-by-20 board. -/
def gLevel : Game :=
  { snake := [⟨5, 5⟩, ⟨4, 5⟩, ⟨3, 5⟩], food := ⟨6, 5⟩, obstacles := []
    direction := .right, score := 4, level := 1, game_over := false
    width := 40, height := 20 }

/-- An oracle stream that makes `generate_level` lay 11 horizontal runs of 7
cells on distinct rows: draw `4i` (orientation) and `4i+2` (start x) are 0,
draw `4i+1` (length) is 4, draw `4i+3` (start y) is the segment index. -/
def rngLevel : Nat → Nat := fun n =>
  match n % 4 with
  | 0 => 0
  | 1 => 4
  | 2 => 0
  | _ => n / 4

/-- The state after `gLevel` advances once under `rngZero`/`rngLevel`. -/
def gLevel1 : Game := (update gLevel rngZero 5 rngLevel).getD gLevel

/-! ## Claim theorems -/

/-- C4: for every alive state where the next cell of the head in the current
direction lies on the outer border, `advance()` sets the terminal flag and
changes nothing else: the result is exactly the input state with
`game_over := true`. -/
theorem wall_hit_kills {g : Game} {rngF : Nat → Nat} {fuelF : Nat}
    {rngL : Nat → Nat} {head : Point} {rest : List Point}
    (hgo : g.game_over = false) (hsn : g.snake = head :: rest)
    (hb : (nextHead g.direction head).x = 0 ∨
          (nextHead g.direction head).x = g.width - 1 ∨
          (nextHead g.direction head).y = 0 ∨
          (nextHead g.direction head).y = g.height - 1) :
    update g rngF fuelF rngL = some { g with game_over := true } := by
  unfold update
  rw [hgo, hsn]
  simp only [Bool.false_eq_true, if_false]
  split
  · rfl
  · rename_i hno
    exfalso
    omega

/-- C4 witness: a snake at (1,5) moving Left dies against the wall with all
other fields unchanged. -/
theorem wall_hit_kills_witness :
    update gWall rngZero 5 rngZero = some { gWall with game_over := true } :=
  wall_hit_kills (by rfl) (by rfl) (by decide)

/-- Iterated `advance()` where call `k` uses the oracles `fam k`. -/
def updateIterFam (fam : Nat → (Nat → Nat) × Nat × (Nat → Nat)) : Nat → Game → Option Game
  | 0, g => some g
  | n + 1, g =>
    match update g (fam n).1 (fam n).2.1 (fam n).2.2 with
    | none => none
    | some g2 => updateIterFam fam n g2

/-- C5: once `game_over` is set, `advance()` returns the state unchanged, and
so does any number of repeated `advance()` calls under any oracles. -/
theorem terminal_idempotent {g : Game} (hgo : g.game_over = true)
    (rngF : Nat → Nat) (fuelF : Nat) (rngL : Nat → Nat)
    (fam : Nat → (Nat → Nat) × Nat × (Nat → Nat)) (n : Nat) :
    update g rngF fuelF rngL = some g ∧ updateIterFam fam n g = some g := by
  have hone : ∀ (a : Nat → Nat) (b : Nat) (c : Nat → Nat),
      update g a b c = some g := by
    intro a b c
    unfold update
    rw [hgo, if_pos rfl]
  refine ⟨hone rngF fuelF rngL, ?_⟩
  induction n with
  | zero => rfl
  | succ m ih =>
    rw [updateIterFam, hone]
    exact ih

/-- C5 witness: a concrete terminal state is unchanged by one call and by
three iterated calls. -/
theorem terminal_idempotent_witness :
    update gDead rngZero 5 rngZero = some gDead ∧
    updateIterFam (fun _ => (rngZero, 5, rngZero)) 3 gDead = some gDead :=
  terminal_idempotent (by rfl) rngZero 5 rngZero (fun _ => (rngZero, 5, rngZero)) 3

/-- C6: the direction-change handlers ignore exactly the 180-degree
reversal: a request for the opposite of the current direction leaves the
direction unchanged, and any other request sets it. -/
theorem no_reversal (g : Game) (d : Direction) :
    (d = oppositeDir g.direction → (setDirection g d).direction = g.direction) ∧
    (d ≠ oppositeDir g.direction → (setDirection g d).direction = d) := by
  constructor
  · intro hd
    unfold setDirection
    rw [if_pos]
    subst hd
    cases g.direction <;> rfl
  · intro hd
    unfold setDirection
    rw [if_neg]
    intro heq
    apply hd
    rw [heq]
    cases d <;> rfl

/-- C6 witness: with current direction Right, requesting Left (the
reversal) is ignored and requesting Up is honoured. -/
theorem no_reversal_witness :
    (Direction.left = oppositeDir gInit.direction →
      (setDirection gInit .left).direction = gInit.direction) ∧
    (Direction.left ≠ oppositeDir gInit.direction →
      (setDirection gInit .left).direction = .left) :=
  no_reversal gInit .left

/-- C1: in every state reachable from `new(w, h)` with `w, h ≥ 10` by
`set_direction` and `advance` calls, every snake cell, the food cell and
every obstacle cell lies strictly inside the border. -/
theorem wall_invariant {w h : Nat} {g : Game} (hw : 10 ≤ w) (hh : 10 ≤ h)
    (hr : Reachable w h g) :
    (∀ p ∈ g.snake, interiorCell w h p) ∧
    interiorCell w h g.food ∧
    (∀ p ∈ g.obstacles, interiorCell w h p) := by
  obtain ⟨_, _, hs, hf, ho, _, _, _, _⟩ := reachable_inv hw hh hr
  exact ⟨hs, hf, ho⟩

/-- C1 witness: the invariant evaluated on the initial state of a 10-by-10
game. -/
theorem wall_invariant_witness :
    (∀ p ∈ gInit.snake, interiorCell 10 10 p) ∧
    interiorCell 10 10 gInit.food ∧
    (∀ p ∈ gInit.obstacles, interiorCell 10 10 p) :=
  wall_invariant (by decide) (by decide) gInit_reachable

/-- C2: on a reachable alive state, a tick whose new head equals the food
grows the snake by exactly one segment, and a tick whose new head is a
non-fatal non-food cell (the result is still alive) keeps the length. -/
theorem growth_law {w h : Nat} {g g1 : Game} {rngF : Nat → Nat} {fuelF : Nat}
    {rngL : Nat → Nat} {head : Point} {rest : List Point}
    (hw : 10 ≤ w) (hh : 10 ≤ h) (hr : Reachable w h g)
    (hgo : g.game_over = false) (hsn : g.snake = head :: rest)
    (hup : update g rngF fuelF rngL = some g1) :
    (nextHead g.direction head = g.food →
      g1.snake.length = g.snake.length + 1) ∧
    (nextHead g.direction head ≠ g.food → g1.game_over = false →
      g1.snake.length = g.snake.length) := by
  obtain ⟨hgw, hgh, hsnake, hfood, hobs, hnodup, hlen, hfs, hfo⟩ :=
    reachable_inv hw hh hr
  subst hgw
  subst hgh
  unfold update at hup
  rw [hgo, hsn] at hup
  simp only [Bool.false_eq_true, if_false] at hup
  rw [← hsn] at hup
  constructor
  · intro hfeq
    split at hup
    · rename_i hwall
      rw [hfeq] at hwall
      obtain ⟨ha, hb, hc, hd⟩ := hfood
      exfalso
      omega
    · split at hup
      · rename_i hself
        rw [hfeq] at hself
        exact absurd hself hfs
      · split at hup
        · rename_i hobst
          rw [hfeq] at hobst
          exact absurd hobst hfo
        · split at hup
          · exact absurd hup (by simp)
          · rename_i food1 hsf
            split at hup
            · injection hup with hup
              subst hup
              unfold generateLevel
              simp [hsn]
            · injection hup with hup
              subst hup
              simp [hsn]
  · intro hfne halive
    split at hup
    · injection hup with hup
      subst hup
      simp at halive
    · split at hup
      · injection hup with hup
        subst hup
        simp at halive
      · split at hup
        · injection hup with hup
          subst hup
          simp at halive
        · injection hup with hup
          subst hup
          simp only [List.length_dropLast, List.length_cons]
          rw [hsn]
          simp

/-- C2 witness: `gEat` advances into its food and grows from 3 to 4
segments. -/
theorem growth_law_witness :
    (nextHead gEat.direction ⟨5, 5⟩ = gEat.food →
      gEat1.snake.length = gEat.snake.length + 1) ∧
    (nextHead gEat.direction ⟨5, 5⟩ ≠ gEat.food → gEat1.game_over = false →
      gEat1.snake.length = gEat.snake.length) :=
  growth_law (by decide) (by decide) gEat_reachable rfl rfl
    (show update gEat rngZero 5 rngZero = some gEat1 by rfl)

/-- C7: in every reachable state of a board with both sides at least 10, the
snake cells are pairwise distinct (in particular while it is alive). -/
theorem self_distinct {w h : Nat} {g : Game} (hw : 10 ≤ w) (hh : 10 ≤ h)
    (hr : Reachable w h g) (_halive : g.game_over = false) :
    g.snake.Nodup := by
  obtain ⟨_, _, _, _, _, hnodup, _, _, _⟩ := reachable_inv hw hh hr
  exact hnodup

/-- C7 witness: the initial snake of a 10-by-10 game has pairwise distinct
cells. -/
theorem self_distinct_witness : gInit.snake.Nodup :=
  self_distinct (by decide) (by decide) gInit_reachable (by rfl)

/-- C10: every reachable state carries at least 3 snake segments, so the
snake is non-empty and the head lookup in `Game::update` cannot fail. -/
theorem snake_never_empty {w h : Nat} {g : Game} (hw : 10 ≤ w) (hh : 10 ≤ h)
    (hr : Reachable w h g) :
    3 ≤ g.snake.length ∧ g.snake ≠ [] := by
  obtain ⟨_, _, _, _, _, _, hlen, _, _⟩ := reachable_inv hw hh hr
  constructor
  · exact hlen
  · intro hnil
    rw [hnil] at hlen
    simp at hlen

/-- C10 witness: the initial 10-by-10 state has 3 segments. -/
theorem snake_never_empty_witness :
    3 ≤ gInit.snake.length ∧ gInit.snake ≠ [] :=
  snake_never_empty (by decide) (by decide) gInit_reachable

/-- C8: after any `generate_level` call every resulting obstacle cell is
strictly inside the border, off the snake, distinct from the food, and at
Manhattan distance greater than 3 from the snake head; and the result is
rebuilt from empty, independent of the prior obstacle set. -/
theorem generate_level_spec (g : Game) (rng : Nat → Nat) (o : List Point) :
    (∀ p ∈ (generateLevel g rng).obstacles,
      (1 ≤ p.x ∧ p.x ≤ g.width - 2 ∧ 1 ≤ p.y ∧ p.y ≤ g.height - 2) ∧
      p ∉ g.snake ∧ p ≠ g.food ∧
      (∀ hd, g.snake.head? = some hd → 3 < manhattan hd p)) ∧
    (generateLevel { g with obstacles := o } rng).obstacles =
      (generateLevel g rng).obstacles := by
  constructor
  · intro p hp
    unfold generateLevel at hp
    rcases genLevelAux_mem g rng _ _ _ p hp with hm | hok
    · simp at hm
    · obtain ⟨hx1, hx2, hy1, hy2, hns, hnf, hfar⟩ := obstacleOK_spec hok
      exact ⟨⟨hx1, by omega, hy1, by omega⟩, hns, hnf, hfar⟩
  · unfold generateLevel
    dsimp only
    exact genLevelAux_congr { g with obstacles := o } g rng rfl rfl rfl rfl _ _ _

/-- C8 witness: a concrete `generate_level` run on a 10-by-10 state, with a
stale obstacle at (1,1) shown not to survive. -/
theorem generate_level_spec_witness :
    (∀ p ∈ (generateLevel gInit rngZero).obstacles,
      (1 ≤ p.x ∧ p.x ≤ gInit.width - 2 ∧ 1 ≤ p.y ∧ p.y ≤ gInit.height - 2) ∧
      p ∉ gInit.snake ∧ p ≠ gInit.food ∧
      (∀ hd, gInit.snake.head? = some hd → 3 < manhattan hd p)) ∧
    (generateLevel { gInit with obstacles := [⟨1, 1⟩] } rngZero).obstacles =
      (generateLevel gInit rngZero).obstacles :=
  generate_level_spec gInit rngZero [⟨1, 1⟩]

/-- C9: whenever the oracle stream eventually samples a free cell, the
`spawn_food` loop terminates and places the food on a free interior cell (a
cell on neither the snake nor an obstacle); if every interior cell is
occupied, the loop runs forever (returns `none` at every fuel). -/
theorem spawn_food_spec (g : Game) (rng : Nat → Nat)
    (hw : 3 ≤ g.width) (hh : 3 ≤ g.height) :
    (∀ n fuel, FreeCell g (sampleAt g rng n) → n < fuel →
      ∃ p, spawnFood g rng fuel = some p ∧ FreeCell g p ∧
        interiorCell g.width g.height p) ∧
    ((∀ q, interiorCell g.width g.height q → ¬ FreeCell g q) →
      ∀ fuel, spawnFood g rng fuel = none) := by
  constructor
  · intro n fuel hfree hn
    obtain ⟨p, hp⟩ := spawnFoodAux_terminates g rng fuel 0 ⟨n, by omega, by omega, hfree⟩
    obtain ⟨hfc, j, hj⟩ := spawnFoodAux_some g rng fuel 0 p hp
    refine ⟨p, hp, hfc, ?_⟩
    rw [hj]
    exact sampleAt_interior g rng j hw hh
  · intro hocc fuel
    apply spawnFoodAux_none
    intro j
    exact hocc (sampleAt g rng j) (sampleAt_interior g rng j hw hh)

/-- C9 witness: on `gInit` the all-zero stream samples the free cell (1,1)
immediately, so one unit of fuel suffices. -/
theorem spawn_food_spec_witness :
    (∀ n fuel, FreeCell gInit (sampleAt gInit rngZero n) → n < fuel →
      ∃ p, spawnFood gInit rngZero fuel = some p ∧ FreeCell gInit p ∧
        interiorCell gInit.width gInit.height p) ∧
    ((∀ q, interiorCell gInit.width gInit.height q → ¬ FreeCell gInit q) →
      ∀ fuel, spawnFood gInit rngZero fuel = none) :=
  spawn_food_spec gInit rngZero (by decide) (by decide)

set_option maxRecDepth 10000 in
/-- C3 counterexample: from the concrete state `gLevel` (score 4, level 1,
food in front of the head) one `advance()` reaches score 5 and level 2, yet
the regenerated obstacle set holds 53 cells, exceeding `level*3+5` for both
the new level (11) and the old one (8): the claimed bound on the obstacle
count is false. -/
theorem levelup_count_cex :
    (update gLevel rngZero 5 rngLevel).map
      (fun g => (g.score, g.level, g.obstacles.length)) = some (5, 2, 53) ∧
    ¬ (53 ≤ 2 * 3 + 5) ∧ ¬ (53 ≤ 1 * 3 + 5) := by
  refine ⟨by rfl, by decide, by decide⟩

/-- C3 (amended): on an alive state, an `advance()` whose new head is the
food cell and is non-fatal, and which brings the score to a multiple of 5,
increments the level by exactly 1 and rebuilds the obstacle set in exactly
one `generate_level` run from empty; the resulting obstacle count is at most
`(level*3+5)*7`, since each of the `level*3+5` attempted segments
contributes at most 7 cells. -/
theorem levelup_spec {g g1 : Game} {rngF : Nat → Nat} {fuelF : Nat}
    {rngL : Nat → Nat} {head : Point} {rest : List Point}
    (hgo : g.game_over = false) (hsn : g.snake = head :: rest)
    (hfeq : nextHead g.direction head = g.food)
    (hnw : ¬ ((nextHead g.direction head).x = 0 ∨
        g.width - 1 ≤ (nextHead g.direction head).x ∨
        (nextHead g.direction head).y = 0 ∨
        g.height - 1 ≤ (nextHead g.direction head).y))
    (hns : nextHead g.direction head ∉ g.snake)
    (hno : nextHead g.direction head ∉ g.obstacles)
    (hscore : (g.score + 1) % 5 = 0)
    (hup : update g rngF fuelF rngL = some g1) :
    g1.level = g.level + 1 ∧ g1.score = g.score + 1 ∧
    (∃ food1,
      spawnFood { g with snake := nextHead g.direction head :: g.snake } rngF fuelF
        = some food1 ∧
      g1.obstacles = genLevelAux
        { g with
          snake := (nextHead g.direction head :: g.snake)
          food := food1
          score := g.score + 1
          level := g.level + 1 } rngL
        ((g.level + 1) * 3 + 5) 0 []) ∧
    g1.obstacles.length ≤ ((g.level + 1) * 3 + 5) * 7 := by
  rw [hgo]
  unfold update at hup
  rw [hgo, hsn] at hup
  simp only [Bool.false_eq_true, if_false] at hup
  rw [← hsn] at hup
  split at hup
  · rename_i hwall
    exact absurd hwall hnw
  · split at hup
    · exact absurd hup (by simp)
    · rename_i food1 hsf
      injection hup with hup
      subst hup
      unfold generateLevel
      refine ⟨rfl, rfl, ⟨food1, hsf, ?_⟩, ?_⟩
      · dsimp only
      · dsimp only
        refine le_trans (genLevelAux_length _ rngL _ _ _) (by simp)

set_option maxRecDepth 10000 in
/-- C3 witness: the concrete level-up from `gLevel` with its 53-cell
obstacle regeneration, within the corrected bound of 77. -/
theorem levelup_spec_witness :
    gLevel1.level = gLevel.level + 1 ∧ gLevel1.score = gLevel.score + 1 ∧
    (∃ food1,
      spawnFood { gLevel with
          snake := nextHead gLevel.direction ⟨5, 5⟩ :: gLevel.snake } rngZero 5
        = some food1 ∧
      gLevel1.obstacles = genLevelAux
        { gLevel with
          snake := (nextHead gLevel.direction ⟨5, 5⟩ :: gLevel.snake)
          food := food1
          score := gLevel.score + 1
          level := gLevel.level + 1 }
        rngLevel ((gLevel.level + 1) * 3 + 5) 0 []) ∧
    gLevel1.obstacles.length ≤ ((gLevel.level + 1) * 3 + 5) * 7 :=
  levelup_spec rfl (show gLevel.snake = ⟨5, 5⟩ :: [⟨4, 5⟩, ⟨3, 5⟩] from rfl)
    (by decide) (by decide) (by decide) (by decide) rfl
    (show update gLevel rngZero 5 rngLevel = some gLevel1 by rfl)
